import Mathlib

/-!
Motor driver (`arduino_firmware/dc_motor_controller/Motor.h`).

A shallow embedding of the `Motor` class: the constructor and `set_speed`
are the sequences of GPIO calls the source issues, in source order, and a
recording GPIO backend gives them their effect on the pins.
-/

namespace Hamilton

/-! ## GPIO facility -/

/-- Logic level of a digital line (`LOW`, `HIGH` of `Arduino.h`). -/
inductive Level where
  | LOW
  | HIGH
  deriving DecidableEq, Repr

/-- Direction of a pin (`INPUT`, `OUTPUT`, `INPUT_PULLUP` of `Arduino.h`). -/
inductive PinMode where
  | INPUT
  | OUTPUT
  | INPUT_PULLUP
  deriving DecidableEq, Repr

/-- One call into the GPIO facility, with its arguments as the source passes
them: the pin first, then the mode, the level or the `int` duty value. -/
inductive GpioOp where
  | pinMode (pin : Int) (mode : PinMode)
  | digitalWrite (pin : Int) (val : Level)
  | analogWrite (pin : Int) (val : Int)
  deriving DecidableEq, Repr

/-- Modelled from the spec: the GPIO facility behind `Arduino.h` is an external
collaborator and not in the repository; its state is the one of the spec's
"mock GPIO backend that records writes": for every pin the mode last
configured, the level last written with `digitalWrite` and the duty value last
written with `analogWrite`. -/
structure Gpio where
  mode : Int → PinMode
  level : Int → Level
  duty : Int → Int

/-- Power-on state of the backend: every pin an input, low, duty 0. -/
def Gpio.reset : Gpio :=
  { mode := fun _ => PinMode.INPUT, level := fun _ => Level.LOW, duty := fun _ => 0 }

/-- Effect of `pinMode(pin, mode)`. -/
def pinMode (pin : Int) (mode : PinMode) (g : Gpio) : Gpio :=
  { g with mode := fun q => if q = pin then mode else g.mode q }

/-- Effect of `digitalWrite(pin, val)`. -/
def digitalWrite (pin : Int) (val : Level) (g : Gpio) : Gpio :=
  { g with level := fun q => if q = pin then val else g.level q }

/-- Effect of `analogWrite(pin, val)`: the value is recorded as passed. -/
def analogWrite (pin : Int) (val : Int) (g : Gpio) : Gpio :=
  { g with duty := fun q => if q = pin then val else g.duty q }

/-- The pin a GPIO call targets. -/
def GpioOp.pin : GpioOp → Int
  | .pinMode pin _ => pin
  | .digitalWrite pin _ => pin
  | .analogWrite pin _ => pin

/-- The call is a `pinMode`. -/
def GpioOp.is_pinMode : GpioOp → Bool
  | .pinMode _ _ => true
  | _ => false

/-- The call is a `digitalWrite`. -/
def GpioOp.is_digitalWrite : GpioOp → Bool
  | .digitalWrite _ _ => true
  | _ => false

/-- The call is an `analogWrite`. -/
def GpioOp.is_analogWrite : GpioOp → Bool
  | .analogWrite _ _ => true
  | _ => false

/-- The `analogWrite` calls of a sequence, as (pin, value) pairs, in order. -/
def analog_writes : List GpioOp → List (Int × Int)
  | [] => []
  | .analogWrite pin val :: ops => (pin, val) :: analog_writes ops
  | _ :: ops => analog_writes ops

/-- Effect of one GPIO call on the backend. -/
def Gpio.step (g : Gpio) : GpioOp → Gpio
  | .pinMode pin mode => pinMode pin mode g
  | .digitalWrite pin val => digitalWrite pin val g
  | .analogWrite pin val => analogWrite pin val g

/-- Effect of a sequence of GPIO calls, issued in order. -/
def Gpio.run (g : Gpio) (ops : List GpioOp) : Gpio :=
  ops.foldl Gpio.step g

/-- The state after each individual call of a sequence, in order (the state
before the first call is not listed). -/
def Gpio.trace (g : Gpio) : List GpioOp → List Gpio
  | [] => []
  | op :: ops => g.step op :: Gpio.trace (g.step op) ops

/-! ## Machine integers -/

/-- Reduction of an integer to the `w`-bit two's-complement `int` range. -/
def wrapInt (w : Nat) (x : Int) : Int :=
  (x + 2 ^ (w - 1)) % 2 ^ w - 2 ^ (w - 1)

/-- Unary minus on a `w`-bit `int`, wrapping. -/
def negInt (w : Nat) (x : Int) : Int :=
  wrapInt w (-x)

/-- The value is representable in a `w`-bit signed `int`. -/
def IsInt (w : Nat) (x : Int) : Prop :=
  -(2 ^ (w - 1)) ≤ x ∧ x < 2 ^ (w - 1)

instance (w : Nat) (x : Int) : Decidable (IsInt w x) := by
  unfold IsInt; infer_instance

/-! ## The Motor class -/

/-- The three private members of `Motor`. -/
structure Motor where
  forward_pin : Int
  back_pin : Int
  pwm_pin : Int
  deriving DecidableEq, Repr

namespace Motor

/-- The three pins are pairwise distinct. -/
def PinsDistinct (m : Motor) : Prop :=
  m.forward_pin ≠ m.back_pin ∧ m.forward_pin ≠ m.pwm_pin ∧ m.back_pin ≠ m.pwm_pin

instance (m : Motor) : Decidable m.PinsDistinct := by
  unfold PinsDistinct; infer_instance

/-- GPIO calls of the constructor body (Motor.h lines 8-13), in order. -/
def ctor_ops (m : Motor) : List GpioOp :=
  [ .pinMode m.forward_pin .OUTPUT,
    .pinMode m.back_pin .OUTPUT,
    .pinMode m.pwm_pin .OUTPUT,
    .digitalWrite m.forward_pin .LOW,
    .digitalWrite m.back_pin .LOW,
    .digitalWrite m.pwm_pin .LOW ]

/-- The constructor `Motor(forward_pin, back_pin, pwm_pin)`: initialises the
members and runs the body on the GPIO state. -/
def construct (forward_pin back_pin pwm_pin : Int) (g : Gpio) : Motor × Gpio :=
  let m : Motor := { forward_pin := forward_pin, back_pin := back_pin, pwm_pin := pwm_pin }
  (m, g.run m.ctor_ops)

/-- GPIO calls of `set_speed(speed)` (Motor.h lines 16-37), in order; `w` is
the width of `int` on the platform, used by the unary minus. -/
def set_speed_ops (w : Nat) (m : Motor) (speed : Int) : List GpioOp :=
  if speed = 0 then
    [ .digitalWrite m.forward_pin .LOW,
      .digitalWrite m.back_pin .LOW,
      .analogWrite m.pwm_pin 0 ]
  else if speed > 0 then
    [ .digitalWrite m.forward_pin .HIGH,
      .analogWrite m.pwm_pin speed,
      .digitalWrite m.back_pin .LOW ]
  else if speed < 0 then
    [ .digitalWrite m.forward_pin .LOW,
      .analogWrite m.pwm_pin (negInt w speed),
      .digitalWrite m.back_pin .HIGH ]
  else
    []

/-- The method `set_speed(speed)` as a transformer of the GPIO state. -/
def set_speed (w : Nat) (m : Motor) (speed : Int) (g : Gpio) : Gpio :=
  g.run (m.set_speed_ops w speed)

/-- The GPIO state after a sequence of `set_speed` commands. -/
def run_cmds (w : Nat) (m : Motor) (g : Gpio) (cmds : List Int) : Gpio :=
  cmds.foldl (fun s speed => m.set_speed w speed s) g

/-- The steady states of a command sequence: the state after each completed
command. -/
def steady_states (w : Nat) (m : Motor) (g : Gpio) : List Int → List Gpio
  | [] => []
  | speed :: cmds => m.set_speed w speed g :: steady_states w m (m.set_speed w speed g) cmds

/-- The sampling points of a command sequence: the state after each individual
pin write of each command. -/
def sampling_states (w : Nat) (m : Motor) (g : Gpio) : List Int → List Gpio
  | [] => []
  | speed :: cmds =>
      g.trace (m.set_speed_ops w speed) ++ sampling_states w m (m.set_speed w speed g) cmds

/-- Both direction lines read high. -/
def both_high (m : Motor) (g : Gpio) : Prop :=
  g.level m.forward_pin = Level.HIGH ∧ g.level m.back_pin = Level.HIGH

instance (m : Motor) (g : Gpio) : Decidable (m.both_high g) := by
  unfold both_high; infer_instance

/-- No command with a positive speed comes directly after one with a negative
speed. -/
def no_reverse_to_forward : List Int → Bool
  | a :: b :: rest => !(decide (a < 0) && decide (0 < b)) && no_reverse_to_forward (b :: rest)
  | _ => true

/-- The intermediate states of one `set_speed(speed)` call started in `g`: the
state after each of its individual writes except the last. -/
def intermediate_states (w : Nat) (m : Motor) (speed : Int) (g : Gpio) : List Gpio :=
  (g.trace (m.set_speed_ops w speed)).dropLast

/-- The GPIO state with the levels of the forward and reverse pins exchanged
and everything else kept. -/
def swap_direction (m : Motor) (g : Gpio) : Gpio :=
  { g with level := fun q =>
      if q = m.forward_pin then g.level m.back_pin
      else if q = m.back_pin then g.level m.forward_pin
      else g.level q }

/-- The observable state of the three owned lines: forward level, reverse
level, PWM duty. -/
def lines (m : Motor) (g : Gpio) : Level × Level × Int :=
  (g.level m.forward_pin, g.level m.back_pin, g.duty m.pwm_pin)

end Motor

/-! ## Basic facts about the backend -/

theorem run_nil (g : Gpio) : g.run [] = g := rfl

theorem run_cons (g : Gpio) (op : GpioOp) (ops : List GpioOp) :
    g.run (op :: ops) = (g.step op).run ops := rfl

theorem run_append (g : Gpio) (xs ys : List GpioOp) :
    g.run (xs ++ ys) = (g.run xs).run ys := by
  simp [Gpio.run, List.foldl_append]

/-- The three branches of `set_speed`, as call sequences. -/
theorem set_speed_ops_zero (w : Nat) (m : Motor) :
    m.set_speed_ops w 0 =
      [ .digitalWrite m.forward_pin .LOW, .digitalWrite m.back_pin .LOW,
        .analogWrite m.pwm_pin 0 ] := by
  simp [Motor.set_speed_ops]

theorem set_speed_ops_pos (w : Nat) (m : Motor) (speed : Int) (h : 0 < speed) :
    m.set_speed_ops w speed =
      [ .digitalWrite m.forward_pin .HIGH, .analogWrite m.pwm_pin speed,
        .digitalWrite m.back_pin .LOW ] := by
  have h0 : speed ≠ 0 := by omega
  simp [Motor.set_speed_ops, h0, h]

theorem set_speed_ops_neg (w : Nat) (m : Motor) (speed : Int) (h : speed < 0) :
    m.set_speed_ops w speed =
      [ .digitalWrite m.forward_pin .LOW, .analogWrite m.pwm_pin (negInt w speed),
        .digitalWrite m.back_pin .HIGH ] := by
  have h0 : speed ≠ 0 := by omega
  have h1 : ¬ 0 < speed := by omega
  simp [Motor.set_speed_ops, h0, h1, h]

/-- A power of two with positive exponent is twice the previous one. -/
theorem two_pow_pred (w : Nat) (hw : 1 ≤ w) : (2 : Int) ^ w = 2 * 2 ^ (w - 1) := by
  obtain ⟨k, rfl⟩ : ∃ k, w = k + 1 := ⟨w - 1, by omega⟩
  simp [pow_succ, mul_comm]

/-- An `int` of at least 16 bits reaches 32768 in magnitude. -/
theorem two_pow_pred_ge (w : Nat) (hw : 16 ≤ w) : (32768 : Int) ≤ 2 ^ (w - 1) := by
  have h : (2 : Int) ^ 15 ≤ 2 ^ (w - 1) :=
    pow_le_pow_right₀ (by norm_num) (by omega)
  norm_num at h
  exact h

/-- Wrapping leaves a representable value alone. -/
theorem wrapInt_of_isInt (w : Nat) (hw : 1 ≤ w) (x : Int) (h : IsInt w x) :
    wrapInt w x = x := by
  obtain ⟨h1, h2⟩ := h
  unfold wrapInt
  rw [two_pow_pred w hw]
  have hp : (0 : Int) < 2 ^ (w - 1) := by positivity
  rw [Int.emod_eq_of_lt (by omega) (by omega)]
  omega

/-- Negation is exact on every `int` but the most negative one. -/
theorem negInt_eq_neg (w : Nat) (hw : 1 ≤ w) (x : Int) (h : IsInt w x)
    (hmin : x ≠ -(2 ^ (w - 1))) : negInt w x = -x := by
  obtain ⟨h1, h2⟩ := h
  apply wrapInt_of_isInt w hw
  constructor <;> omega

/-- After any single command the direction lines are not both high, when they
are distinct pins. -/
theorem set_speed_not_both_high (w : Nat) (m : Motor) (g : Gpio) (speed : Int)
    (hfb : m.forward_pin ≠ m.back_pin) : ¬ m.both_high (m.set_speed w speed g) := by
  rcases lt_trichotomy speed 0 with h | h | h
  · simp [Motor.both_high, Motor.set_speed, set_speed_ops_neg w m speed h, Gpio.step, Gpio.run,
      digitalWrite, analogWrite, hfb]
  · subst h
    simp [Motor.both_high, Motor.set_speed, set_speed_ops_zero, Gpio.step, Gpio.run,
      digitalWrite, analogWrite]
  · simp [Motor.both_high, Motor.set_speed, set_speed_ops_pos w m speed h, Gpio.step, Gpio.run,
      digitalWrite, analogWrite, hfb]

/-- Every steady state of a command sequence is free of overlap, from any
starting state. -/
theorem steady_states_safe (w : Nat) (m : Motor) (hfb : m.forward_pin ≠ m.back_pin)
    (cmds : List Int) : ∀ g : Gpio, ∀ s ∈ m.steady_states w g cmds, ¬ m.both_high s := by
  induction cmds with
  | nil => intro g s hs; simp [Motor.steady_states] at hs
  | cons c cs ih =>
    intro g s hs
    simp only [Motor.steady_states, List.mem_cons] at hs
    rcases hs with rfl | hs
    · exact set_speed_not_both_high w m g c hfb
    · exact ih _ s hs

/-- The reverse line is low right after construction. -/
theorem construct_back_low (f b p : Int) (g : Gpio) :
    (Motor.construct f b p g).2.level (Motor.construct f b p g).1.back_pin = Level.LOW := by
  simp only [Motor.construct, Motor.ctor_ops, Gpio.run, List.foldl, Gpio.step, digitalWrite,
    pinMode]
  split <;> simp

/-- Sampling-point safety of a command sequence without a reverse-to-forward
step, from a state whose reverse line is low, or whose forward line is low
when the first command is not a forward one. -/
theorem sampling_states_safe_aux (w : Nat) (m : Motor) (hfb : m.forward_pin ≠ m.back_pin)
    (cmds : List Int) :
    ∀ g : Gpio, Motor.no_reverse_to_forward cmds = true →
      (g.level m.back_pin = Level.LOW ∨
        (g.level m.forward_pin = Level.LOW ∧ ∀ c ∈ cmds.head?, c ≤ 0)) →
      ∀ s ∈ m.sampling_states w g cmds, ¬ m.both_high s := by
  induction cmds with
  | nil => intro g _ _ s hs; simp [Motor.sampling_states] at hs
  | cons c cs ih =>
    intro g hch hg s hs
    have hbf : m.back_pin ≠ m.forward_pin := fun h => hfb h.symm
    have hcs : Motor.no_reverse_to_forward cs = true := by
      cases cs with
      | nil => rfl
      | cons e es =>
        simp only [Motor.no_reverse_to_forward, Bool.and_eq_true] at hch
        exact hch.2
    simp only [Motor.sampling_states, List.mem_append] at hs
    rcases lt_trichotomy c 0 with h | h | h
    · rcases hs with hs | hs
      · simp only [set_speed_ops_neg w m c h, Gpio.trace, List.mem_cons, List.mem_nil_iff,
          or_false] at hs
        rcases hs with rfl | rfl | rfl <;>
          simp [Motor.both_high, Gpio.step, digitalWrite, analogWrite, hfb]
      · refine ih _ hcs (Or.inr ⟨?_, ?_⟩) s hs
        · simp [Motor.set_speed, set_speed_ops_neg w m c h, Gpio.step, Gpio.run, digitalWrite,
            analogWrite, hfb]
        · intro d hd
          cases cs with
          | nil => simp at hd
          | cons e es =>
            simp only [List.head?_cons, Option.mem_def, Option.some.injEq] at hd
            subst hd
            simp only [Motor.no_reverse_to_forward, Bool.and_eq_true, Bool.not_eq_true',
              Bool.and_eq_false_iff, decide_eq_false_iff_not] at hch
            omega
    · subst h
      rcases hs with hs | hs
      · simp only [set_speed_ops_zero, Gpio.trace, List.mem_cons, List.mem_nil_iff,
          or_false] at hs
        rcases hs with rfl | rfl | rfl <;>
          simp [Motor.both_high, Gpio.step, digitalWrite, analogWrite]
      · refine ih _ hcs (Or.inl ?_) s hs
        simp [Motor.set_speed, set_speed_ops_zero, Gpio.step, Gpio.run, digitalWrite,
          analogWrite]
    · have hlow : g.level m.back_pin = Level.LOW := by
        rcases hg with hg | ⟨-, hg⟩
        · exact hg
        · have := hg c (by simp)
          omega
      rcases hs with hs | hs
      · simp only [set_speed_ops_pos w m c h, Gpio.trace, List.mem_cons, List.mem_nil_iff,
          or_false] at hs
        rcases hs with rfl | rfl | rfl <;>
          simp [Motor.both_high, Gpio.step, digitalWrite, analogWrite, hbf, hlow]
      · refine ih _ hcs (Or.inl ?_) s hs
        simp [Motor.set_speed, set_speed_ops_pos w m c h, Gpio.step, Gpio.run, digitalWrite,
          analogWrite]

/-! ## Speed commands: the direction table -/

/-- C1: on pairwise distinct pins, from any GPIO state, a speed in 1..255
leaves forward HIGH, reverse LOW and PWM duty equal to the speed. -/
theorem set_speed_forward (w : Nat) (m : Motor) (g : Gpio) (speed : Int)
    (hd : m.PinsDistinct) (hpos : 0 < speed) (hmax : speed ≤ 255) :
    (m.set_speed w speed g).level m.forward_pin = Level.HIGH ∧
    (m.set_speed w speed g).level m.back_pin = Level.LOW ∧
    (m.set_speed w speed g).duty m.pwm_pin = speed := by
  obtain ⟨hfb, -, -⟩ := hd
  have h0 : speed ≠ 0 := by omega
  simp [Motor.set_speed, Motor.set_speed_ops, h0, hpos, Gpio.step, Gpio.run, digitalWrite,
    analogWrite, hfb]

/-- Witness for C1: pins 4, 5, 6 from power-on, speeds 200 and 255. -/
theorem set_speed_forward_witness :
    (Motor.mk 4 5 6).PinsDistinct ∧
    ((Motor.mk 4 5 6).set_speed 16 200 Gpio.reset).level 4 = Level.HIGH ∧
    ((Motor.mk 4 5 6).set_speed 16 200 Gpio.reset).level 5 = Level.LOW ∧
    ((Motor.mk 4 5 6).set_speed 16 200 Gpio.reset).duty 6 = 200 ∧
    ((Motor.mk 4 5 6).set_speed 16 255 Gpio.reset).duty 6 = 255 :=
  ⟨by decide,
   (set_speed_forward 16 (Motor.mk 4 5 6) Gpio.reset 200 (by decide) (by decide) (by decide)).1,
   (set_speed_forward 16 (Motor.mk 4 5 6) Gpio.reset 200 (by decide) (by decide) (by decide)).2.1,
   (set_speed_forward 16 (Motor.mk 4 5 6) Gpio.reset 200 (by decide) (by decide) (by decide)).2.2,
   (set_speed_forward 16 (Motor.mk 4 5 6) Gpio.reset 255 (by decide) (by decide) (by decide)).2.2⟩

/-- C2: on pairwise distinct pins, from any GPIO state, a speed in -255..-1
leaves forward LOW, reverse HIGH and PWM duty equal to the negated speed (for
an `int` of at least 16 bits). -/
theorem set_speed_reverse (w : Nat) (m : Motor) (g : Gpio) (speed : Int)
    (hw : 16 ≤ w) (hd : m.PinsDistinct) (hneg : speed < 0) (hmin : -255 ≤ speed) :
    (m.set_speed w speed g).level m.forward_pin = Level.LOW ∧
    (m.set_speed w speed g).level m.back_pin = Level.HIGH ∧
    (m.set_speed w speed g).duty m.pwm_pin = -speed := by
  obtain ⟨hfb, -, -⟩ := hd
  have hbig := two_pow_pred_ge w hw
  have hn : negInt w speed = -speed :=
    negInt_eq_neg w (by omega) speed ⟨by omega, by omega⟩ (by omega)
  simp [Motor.set_speed, set_speed_ops_neg w m speed hneg, Gpio.step, Gpio.run, digitalWrite,
    analogWrite, hfb, hn]

/-- Witness for C2: pins 4, 5, 6 from power-on, speeds -150 and -255. -/
theorem set_speed_reverse_witness :
    (16 ≤ 16) ∧ (Motor.mk 4 5 6).PinsDistinct ∧
    ((Motor.mk 4 5 6).set_speed 16 (-150) Gpio.reset).level 4 = Level.LOW ∧
    ((Motor.mk 4 5 6).set_speed 16 (-150) Gpio.reset).level 5 = Level.HIGH ∧
    ((Motor.mk 4 5 6).set_speed 16 (-150) Gpio.reset).duty 6 = 150 ∧
    ((Motor.mk 4 5 6).set_speed 16 (-255) Gpio.reset).duty 6 = 255 :=
  ⟨by decide, by decide,
   (set_speed_reverse 16 (Motor.mk 4 5 6) Gpio.reset (-150) (by decide) (by decide)
      (by decide) (by decide)).1,
   (set_speed_reverse 16 (Motor.mk 4 5 6) Gpio.reset (-150) (by decide) (by decide)
      (by decide) (by decide)).2.1,
   (set_speed_reverse 16 (Motor.mk 4 5 6) Gpio.reset (-150) (by decide) (by decide)
      (by decide) (by decide)).2.2,
   (set_speed_reverse 16 (Motor.mk 4 5 6) Gpio.reset (-255) (by decide) (by decide)
      (by decide) (by decide)).2.2⟩

/-- C3: on pairwise distinct pins, from any GPIO state, `set_speed(0)` leaves
forward LOW, reverse LOW and PWM duty 0 (coast stop). -/
theorem set_speed_zero (w : Nat) (m : Motor) (g : Gpio) (hd : m.PinsDistinct) :
    (m.set_speed w 0 g).level m.forward_pin = Level.LOW ∧
    (m.set_speed w 0 g).level m.back_pin = Level.LOW ∧
    (m.set_speed w 0 g).duty m.pwm_pin = 0 := by
  obtain ⟨hfb, -, -⟩ := hd
  simp [Motor.set_speed, set_speed_ops_zero, Gpio.step, Gpio.run, digitalWrite, analogWrite]

/-- Witness for C3: pins 4, 5, 6 from power-on. -/
theorem set_speed_zero_witness :
    (Motor.mk 4 5 6).PinsDistinct ∧
    ((Motor.mk 4 5 6).set_speed 16 0 Gpio.reset).level 4 = Level.LOW ∧
    ((Motor.mk 4 5 6).set_speed 16 0 Gpio.reset).level 5 = Level.LOW ∧
    ((Motor.mk 4 5 6).set_speed 16 0 Gpio.reset).duty 6 = 0 :=
  ⟨by decide, set_speed_zero 16 (Motor.mk 4 5 6) Gpio.reset (by decide)⟩

/-! ## Safety of the direction lines -/

/-- C4: steady-state safety. After construction on pairwise distinct pins, in
the state reached after each completed command of any command sequence the
forward and reverse pins are not both HIGH. -/
theorem steady_state_safety (w : Nat) (f b p : Int) (g : Gpio) (cmds : List Int)
    (hd : (Motor.construct f b p g).1.PinsDistinct) :
    ∀ s ∈ (Motor.construct f b p g).1.steady_states w (Motor.construct f b p g).2 cmds,
      ¬ (Motor.construct f b p g).1.both_high s :=
  steady_states_safe w _ hd.1 cmds _

/-- Witness for C4: pins 4, 5, 6 from power-on, commands -150, 200, 0. -/
theorem steady_state_safety_witness :
    (Motor.construct 4 5 6 Gpio.reset).1.PinsDistinct ∧
    ∀ s ∈ (Motor.construct 4 5 6 Gpio.reset).1.steady_states 16
        (Motor.construct 4 5 6 Gpio.reset).2 [-150, 200, 0],
      ¬ (Motor.construct 4 5 6 Gpio.reset).1.both_high s :=
  ⟨by decide, steady_state_safety 16 4 5 6 Gpio.reset [-150, 200, 0] (by decide)⟩

/-- C5 fails as stated: on pins 4, 5, 6, constructed from power-on, the
commands set_speed(-150); set_speed(200) pass through a sampling point with
forward and reverse both HIGH (after the first write of the second command). -/
theorem strict_non_overlap_counterexample :
    (Motor.construct 4 5 6 Gpio.reset).1.PinsDistinct ∧
    ∃ s ∈ (Motor.construct 4 5 6 Gpio.reset).1.sampling_states 16
        (Motor.construct 4 5 6 Gpio.reset).2 [-150, 200],
      (Motor.construct 4 5 6 Gpio.reset).1.both_high s := by
  decide

/-- C5 amended: after construction on pairwise distinct pins, for every command
sequence in which no positive speed directly follows a negative one, at every
sampling point (after each individual pin write) forward and reverse are not
both HIGH. -/
theorem strict_non_overlap (w : Nat) (f b p : Int) (g : Gpio) (cmds : List Int)
    (hd : (Motor.construct f b p g).1.PinsDistinct)
    (hseq : Motor.no_reverse_to_forward cmds = true) :
    ∀ s ∈ (Motor.construct f b p g).1.sampling_states w (Motor.construct f b p g).2 cmds,
      ¬ (Motor.construct f b p g).1.both_high s :=
  sampling_states_safe_aux w _ hd.1 cmds _ hseq (Or.inl (construct_back_low f b p g))

/-- Witness for C5 amended: pins 4, 5, 6 from power-on, commands 200, -150. -/
theorem strict_non_overlap_witness :
    (Motor.construct 4 5 6 Gpio.reset).1.PinsDistinct ∧
    Motor.no_reverse_to_forward [200, -150] = true ∧
    ∀ s ∈ (Motor.construct 4 5 6 Gpio.reset).1.sampling_states 16
        (Motor.construct 4 5 6 Gpio.reset).2 [200, -150],
      ¬ (Motor.construct 4 5 6 Gpio.reset).1.both_high s :=
  ⟨by decide, by decide,
   strict_non_overlap 16 4 5 6 Gpio.reset [200, -150] (by decide) (by decide)⟩

/-! ## Construction -/

/-- C6: the constructor `Motor(f, b, p)` stores the three pins and issues
exactly six GPIO calls, in this order: pinMode OUTPUT on f, b, p, then
digitalWrite LOW on f, b, p; the three mode configurations come first, the
three level writes last, and afterwards the three pins are outputs and LOW. -/
theorem construct_effects (f b p : Int) (g : Gpio) :
    (Motor.construct f b p g).1 = Motor.mk f b p ∧
    (Motor.construct f b p g).1.ctor_ops =
      [ GpioOp.pinMode f PinMode.OUTPUT, GpioOp.pinMode b PinMode.OUTPUT,
        GpioOp.pinMode p PinMode.OUTPUT, GpioOp.digitalWrite f Level.LOW,
        GpioOp.digitalWrite b Level.LOW, GpioOp.digitalWrite p Level.LOW ] ∧
    (Motor.construct f b p g).2 = g.run (Motor.construct f b p g).1.ctor_ops ∧
    ((Motor.construct f b p g).1.ctor_ops.take 3).all GpioOp.is_pinMode = true ∧
    ((Motor.construct f b p g).1.ctor_ops.drop 3).all GpioOp.is_digitalWrite = true ∧
    ((Motor.construct f b p g).2.mode f = PinMode.OUTPUT ∧
      (Motor.construct f b p g).2.mode b = PinMode.OUTPUT ∧
      (Motor.construct f b p g).2.mode p = PinMode.OUTPUT) ∧
    ((Motor.construct f b p g).2.level f = Level.LOW ∧
      (Motor.construct f b p g).2.level b = Level.LOW ∧
      (Motor.construct f b p g).2.level p = Level.LOW) := by
  refine ⟨rfl, rfl, rfl, rfl, rfl, ⟨?_, ?_, ?_⟩, ⟨?_, ?_, ?_⟩⟩ <;>
    simp only [Motor.construct, Motor.ctor_ops, Gpio.run, List.foldl, Gpio.step, digitalWrite,
      pinMode] <;>
    split_ifs <;> rfl

/-! ## Algebra of speed commands -/

/-- C7: idempotence. For every motor (on pairwise distinct pins or not), from
any GPIO state and for any speed, two identical `set_speed` calls leave the
same GPIO state as one. -/
theorem set_speed_idempotent (w : Nat) (m : Motor) (g : Gpio) (speed : Int) :
    m.set_speed w speed (m.set_speed w speed g) = m.set_speed w speed g := by
  rcases lt_trichotomy speed 0 with h | h | h
  · simp only [Motor.set_speed, set_speed_ops_neg w m speed h, Gpio.run, List.foldl, Gpio.step,
      digitalWrite, analogWrite, Gpio.mk.injEq, true_and]
    constructor <;> funext q <;> split_ifs <;> rfl
  · subst h
    simp only [Motor.set_speed, set_speed_ops_zero, Gpio.run, List.foldl, Gpio.step,
      digitalWrite, analogWrite, Gpio.mk.injEq, true_and]
    constructor <;> funext q <;> split_ifs <;> rfl
  · simp only [Motor.set_speed, set_speed_ops_pos w m speed h, Gpio.run, List.foldl, Gpio.step,
      digitalWrite, analogWrite, Gpio.mk.injEq, true_and]
    constructor <;> funext q <;> split_ifs <;> rfl

/-- The owned lines after one command do not depend on the state before it. -/
theorem lines_set_speed_indep (w : Nat) (m : Motor) (speed : Int)
    (hfb : m.forward_pin ≠ m.back_pin) (g g' : Gpio) :
    m.lines (m.set_speed w speed g) = m.lines (m.set_speed w speed g') := by
  rcases lt_trichotomy speed 0 with h | h | h
  · simp [Motor.lines, Motor.set_speed, set_speed_ops_neg w m speed h, Gpio.step, Gpio.run,
      digitalWrite, analogWrite, hfb]
  · subst h
    simp [Motor.lines, Motor.set_speed, set_speed_ops_zero, Gpio.step, Gpio.run, digitalWrite,
      analogWrite]
  · simp [Motor.lines, Motor.set_speed, set_speed_ops_pos w m speed h, Gpio.step, Gpio.run,
      digitalWrite, analogWrite, hfb]

/-- A call sequence leaves alone every pin that none of its calls targets. -/
theorem run_untouched (q : Int) (ops : List GpioOp) :
    ∀ g : Gpio, (∀ op ∈ ops, op.pin ≠ q) →
      (g.run ops).mode q = g.mode q ∧ (g.run ops).level q = g.level q ∧
        (g.run ops).duty q = g.duty q := by
  induction ops with
  | nil => intro g _; exact ⟨rfl, rfl, rfl⟩
  | cons op ops ih =>
    intro g h
    have hq : q ≠ op.pin := fun e => h op (List.mem_cons_self _ _) e.symm
    obtain ⟨h1, h2, h3⟩ := ih (g.step op) (fun o ho => h o (List.mem_cons_of_mem _ ho))
    rw [run_cons, h1, h2, h3]
    cases op <;> simp [Gpio.step, pinMode, digitalWrite, analogWrite, GpioOp.pin] at hq ⊢ <;>
      simp [hq]

/-- Every call of `set_speed` targets an owned pin. -/
theorem set_speed_ops_pins (w : Nat) (m : Motor) (speed : Int) :
    ∀ op ∈ m.set_speed_ops w speed,
      op.pin = m.forward_pin ∨ op.pin = m.back_pin ∨ op.pin = m.pwm_pin := by
  intro op hop
  rcases lt_trichotomy speed 0 with h | h | h
  · simp only [set_speed_ops_neg w m speed h, List.mem_cons, List.mem_nil_iff, or_false] at hop
    rcases hop with rfl | rfl | rfl <;> simp [GpioOp.pin]
  · subst h
    simp only [set_speed_ops_zero, List.mem_cons, List.mem_nil_iff, or_false] at hop
    rcases hop with rfl | rfl | rfl <;> simp [GpioOp.pin]
  · simp only [set_speed_ops_pos w m speed h, List.mem_cons, List.mem_nil_iff, or_false] at hop
    rcases hop with rfl | rfl | rfl <;> simp [GpioOp.pin]

/-- Every call of the constructor targets an owned pin. -/
theorem ctor_ops_pins (m : Motor) :
    ∀ op ∈ m.ctor_ops,
      op.pin = m.forward_pin ∨ op.pin = m.back_pin ∨ op.pin = m.pwm_pin := by
  intro op hop
  simp only [Motor.ctor_ops, List.mem_cons, List.mem_nil_iff, or_false] at hop
  rcases hop with rfl | rfl | rfl | rfl | rfl | rfl <;> simp [GpioOp.pin]

/-! ## Magnitude, last-command semantics and frame -/

/-- C8 fails as stated: with a 16-bit `int`, `set_speed(-32768)` (the most
negative `int`) passes -32768 to the PWM write on pin 6, not the absolute value
32768. -/
theorem pwm_magnitude_counterexample :
    IsInt 16 (-32768) ∧
    analog_writes ((Motor.mk 4 5 6).set_speed_ops 16 (-32768)) = [(6, -32768)] ∧
    ((Motor.mk 4 5 6).set_speed 16 (-32768) Gpio.reset).duty 6 = -32768 ∧
    (-32768 : Int) ≠ |(-32768 : Int)| := by
  refine ⟨by decide, by decide, by decide, by decide⟩

/-- C8 amended: for an `int` of any width `w ≥ 1` and every representable speed
other than the most negative one, the only PWM write of `set_speed(speed)` is on
the PWM pin with value |speed|, unclamped, and that is the duty recorded on the
pin. -/
theorem pwm_magnitude (w : Nat) (m : Motor) (g : Gpio) (speed : Int)
    (hw : 1 ≤ w) (hrep : IsInt w speed) (hmin : speed ≠ -(2 ^ (w - 1))) :
    analog_writes (m.set_speed_ops w speed) = [(m.pwm_pin, |speed|)] ∧
    (m.set_speed w speed g).duty m.pwm_pin = |speed| := by
  rcases lt_trichotomy speed 0 with h | h | h
  · have hn : negInt w speed = -speed := negInt_eq_neg w hw speed hrep hmin
    simp [Motor.set_speed, set_speed_ops_neg w m speed h, analog_writes, Gpio.step, Gpio.run,
      digitalWrite, analogWrite, hn, abs_of_neg h]
  · subst h
    simp [Motor.set_speed, set_speed_ops_zero, analog_writes, Gpio.step, Gpio.run,
      digitalWrite, analogWrite]
  · simp [Motor.set_speed, set_speed_ops_pos w m speed h, analog_writes, Gpio.step, Gpio.run,
      digitalWrite, analogWrite, abs_of_pos h]

/-- Witness for C8 amended: 16-bit `int`, pins 4, 5, 6, speed -32767. -/
theorem pwm_magnitude_witness :
    (1 ≤ 16) ∧ IsInt 16 (-32767) ∧ (-32767 : Int) ≠ -(2 ^ (16 - 1)) ∧
    analog_writes ((Motor.mk 4 5 6).set_speed_ops 16 (-32767)) = [(6, |(-32767 : Int)|)] ∧
    ((Motor.mk 4 5 6).set_speed 16 (-32767) Gpio.reset).duty 6 = |(-32767 : Int)| :=
  ⟨by decide, by decide, by decide,
   pwm_magnitude 16 (Motor.mk 4 5 6) Gpio.reset (-32767) (by decide) (by decide) (by decide)⟩

/-- C9: most-recent-command semantics. On pairwise distinct pins, for every
non-empty command sequence and every prior state, the final forward level,
reverse level and PWM duty are those the last command alone produces, from any
state whatever. -/
theorem last_command_semantics (w : Nat) (m : Motor) (g g' : Gpio) (cmds : List Int)
    (hd : m.PinsDistinct) (hne : cmds ≠ []) :
    m.lines (m.run_cmds w g cmds) = m.lines (m.set_speed w (cmds.getLast hne) g') := by
  obtain ⟨init, last, rfl⟩ : ∃ init last, cmds = init ++ [last] :=
    ⟨cmds.dropLast, cmds.getLast hne, (List.dropLast_append_getLast hne).symm⟩
  rw [List.getLast_append_singleton]
  simp only [Motor.run_cmds, List.foldl_append, List.foldl_cons, List.foldl_nil]
  exact lines_set_speed_indep w m last hd.1 _ g'

/-- Witness for C9: pins 4, 5, 6, commands 200, 0, -150 from power-on against
the last command alone from power-on. -/
theorem last_command_semantics_witness :
    (Motor.mk 4 5 6).PinsDistinct ∧ ([200, 0, -150] : List Int) ≠ [] ∧
    (Motor.mk 4 5 6).lines ((Motor.mk 4 5 6).run_cmds 16 Gpio.reset [200, 0, -150]) =
      (Motor.mk 4 5 6).lines ((Motor.mk 4 5 6).set_speed 16 (-150) Gpio.reset) :=
  ⟨by decide, by decide,
   last_command_semantics 16 (Motor.mk 4 5 6) Gpio.reset Gpio.reset [200, 0, -150]
     (by decide) (by decide)⟩

/-- C10: frame. Every GPIO call of the constructor and of `set_speed` targets
one of the three owned pins, and the mode, level and duty of every other pin
are the same after the constructor and after `set_speed` as before. -/
theorem owned_pins_frame (w : Nat) (f b p : Int) (g : Gpio) (speed : Int) (q : Int)
    (hqf : q ≠ f) (hqb : q ≠ b) (hqp : q ≠ p) :
    (∀ op ∈ (Motor.mk f b p).ctor_ops, op.pin = f ∨ op.pin = b ∨ op.pin = p) ∧
    (∀ op ∈ (Motor.mk f b p).set_speed_ops w speed, op.pin = f ∨ op.pin = b ∨ op.pin = p) ∧
    ((Motor.construct f b p g).2.mode q = g.mode q ∧
      (Motor.construct f b p g).2.level q = g.level q ∧
      (Motor.construct f b p g).2.duty q = g.duty q) ∧
    (((Motor.mk f b p).set_speed w speed g).mode q = g.mode q ∧
      ((Motor.mk f b p).set_speed w speed g).level q = g.level q ∧
      ((Motor.mk f b p).set_speed w speed g).duty q = g.duty q) := by
  have hc := ctor_ops_pins (Motor.mk f b p)
  have hs := set_speed_ops_pins w (Motor.mk f b p) speed
  refine ⟨hc, hs, ?_, ?_⟩
  · apply run_untouched q
    intro op hop e
    rcases hc op hop with h | h | h <;> simp only [e] at h <;> contradiction
  · apply run_untouched q
    intro op hop e
    rcases hs op hop with h | h | h <;> simp only [e] at h <;> contradiction

/-- Witness for C10: pins 4, 5, 6, speed 200, bystander pin 7, from power-on. -/
theorem owned_pins_frame_witness :
    ((7 : Int) ≠ 4 ∧ (7 : Int) ≠ 5 ∧ (7 : Int) ≠ 6) ∧
    ((Motor.construct 4 5 6 Gpio.reset).2.mode 7 = Gpio.reset.mode 7 ∧
      (Motor.construct 4 5 6 Gpio.reset).2.level 7 = Gpio.reset.level 7 ∧
      (Motor.construct 4 5 6 Gpio.reset).2.duty 7 = Gpio.reset.duty 7) ∧
    (((Motor.mk 4 5 6).set_speed 16 200 Gpio.reset).mode 7 = Gpio.reset.mode 7 ∧
      ((Motor.mk 4 5 6).set_speed 16 200 Gpio.reset).level 7 = Gpio.reset.level 7 ∧
      ((Motor.mk 4 5 6).set_speed 16 200 Gpio.reset).duty 7 = Gpio.reset.duty 7) :=
  ⟨by decide,
   (owned_pins_frame 16 4 5 6 Gpio.reset 200 7 (by decide) (by decide) (by decide)).2.2.1,
   (owned_pins_frame 16 4 5 6 Gpio.reset 200 7 (by decide) (by decide) (by decide)).2.2.2⟩

/-! ## Construction and the coast-stopped state -/

/-- The constructor issues no `analogWrite`: every recorded duty is kept. -/
theorem construct_keeps_duty (f b p : Int) (g : Gpio) :
    (Motor.construct f b p g).2.duty = g.duty := rfl

/-- The lines right after construction are the coast-stopped ones only when the
PWM pin carried duty 0 before. -/
theorem construct_lines_coast_only_if (f b p : Int) (g : Gpio)
    (h : (Motor.construct f b p g).1.lines (Motor.construct f b p g).2 =
      (Level.LOW, Level.LOW, 0)) : g.duty p = 0 := by
  simp only [Motor.lines, Prod.mk.injEq] at h
  exact h.2.2

/-- C12: for every integer speed `set_speed` issues exactly three GPIO calls:
two digitalWrite calls, on the forward pin and on the reverse pin, one
analogWrite call, on the PWM pin, and no pinMode call; no speed is rejected or
ignored. -/
theorem set_speed_three_writes (w : Nat) (m : Motor) (speed : Int) :
    (m.set_speed_ops w speed).length = 3 ∧
    ((m.set_speed_ops w speed).filter GpioOp.is_digitalWrite).map GpioOp.pin =
      [m.forward_pin, m.back_pin] ∧
    ((m.set_speed_ops w speed).filter GpioOp.is_analogWrite).map GpioOp.pin = [m.pwm_pin] ∧
    (m.set_speed_ops w speed).filter GpioOp.is_pinMode = [] := by
  rcases lt_trichotomy speed 0 with h | h | h
  · simp [set_speed_ops_neg w m speed h, GpioOp.is_digitalWrite, GpioOp.is_analogWrite,
      GpioOp.is_pinMode, GpioOp.pin]
  · subst h
    simp [set_speed_ops_zero, GpioOp.is_digitalWrite, GpioOp.is_analogWrite,
      GpioOp.is_pinMode, GpioOp.pin]
  · simp [set_speed_ops_pos w m speed h, GpioOp.is_digitalWrite, GpioOp.is_analogWrite,
      GpioOp.is_pinMode, GpioOp.pin]

/-! ## Transient overlap, sign symmetry and aliased pins -/

/-- C13: on pairwise distinct pins, from any state (direction pins both high or
not), some intermediate state of `set_speed(speed)` (after one of its writes,
before its last) has forward and reverse both HIGH exactly when speed > 0 and
the reverse pin was HIGH before the call; for speed <= 0 the first write drives
the forward pin LOW and no intermediate state has both HIGH. -/
theorem transient_overlap_iff (w : Nat) (m : Motor) (g : Gpio) (speed : Int)
    (hd : m.PinsDistinct) :
    ((∃ s ∈ m.intermediate_states w speed g, m.both_high s) ↔
      (0 < speed ∧ g.level m.back_pin = Level.HIGH)) ∧
    (speed ≤ 0 →
      (m.set_speed_ops w speed).head? = some (GpioOp.digitalWrite m.forward_pin Level.LOW) ∧
      ∀ s ∈ m.intermediate_states w speed g, ¬ m.both_high s) := by
  obtain ⟨hfb, -, -⟩ := hd
  have hbf : m.back_pin ≠ m.forward_pin := fun h => hfb h.symm
  rcases lt_trichotomy speed 0 with h | h | h
  · have h1 : ¬ 0 < speed := by omega
    simp [Motor.intermediate_states, set_speed_ops_neg w m speed h, Gpio.trace,
      Motor.both_high, Gpio.step, digitalWrite, analogWrite, h1]
  · subst h
    simp [Motor.intermediate_states, set_speed_ops_zero, Gpio.trace, Motor.both_high,
      Gpio.step, digitalWrite, analogWrite]
  · have h1 : ¬ speed ≤ 0 := by omega
    simp [Motor.intermediate_states, set_speed_ops_pos w m speed h, Gpio.trace,
      Motor.both_high, Gpio.step, digitalWrite, analogWrite, h, h1, hbf]

/-- Witness for C13: pins 4, 5, 6, `set_speed(200)` issued in the state that
`set_speed(-150)` leaves from power-on. -/
theorem transient_overlap_iff_witness :
    (Motor.mk 4 5 6).PinsDistinct ∧
    ((∃ s ∈ (Motor.mk 4 5 6).intermediate_states 16 200
          ((Motor.mk 4 5 6).set_speed 16 (-150) Gpio.reset),
        (Motor.mk 4 5 6).both_high s) ↔
      ((0 : Int) < 200 ∧
        ((Motor.mk 4 5 6).set_speed 16 (-150) Gpio.reset).level 5 = Level.HIGH)) :=
  ⟨by decide,
   (transient_overlap_iff 16 (Motor.mk 4 5 6) ((Motor.mk 4 5 6).set_speed 16 (-150) Gpio.reset)
      200 (by decide)).1⟩

/-- C14: sign symmetry. On pairwise distinct pins, for every `int` speed other
than the most negative one and from any state, the state after
`set_speed(-speed)` is the state after `set_speed(speed)` with the levels of
the forward and reverse pins exchanged; the PWM duty is the same. -/
theorem sign_symmetry (w : Nat) (m : Motor) (g : Gpio) (speed : Int)
    (hw : 1 ≤ w) (hd : m.PinsDistinct) (hrep : IsInt w speed)
    (hmin : speed ≠ -(2 ^ (w - 1))) :
    m.set_speed w (-speed) g = m.swap_direction (m.set_speed w speed g) ∧
    (m.set_speed w (-speed) g).level m.forward_pin =
      (m.set_speed w speed g).level m.back_pin ∧
    (m.set_speed w (-speed) g).level m.back_pin =
      (m.set_speed w speed g).level m.forward_pin ∧
    (m.set_speed w (-speed) g).duty m.pwm_pin = (m.set_speed w speed g).duty m.pwm_pin := by
  obtain ⟨hfb, -, -⟩ := hd
  have hbf : m.back_pin ≠ m.forward_pin := fun h => hfb h.symm
  obtain ⟨hlo, hhi⟩ := hrep
  rcases lt_trichotomy speed 0 with h | h | h
  · have hn : negInt w speed = -speed := negInt_eq_neg w hw speed ⟨hlo, hhi⟩ hmin
    have hp : 0 < -speed := by omega
    refine ⟨?_, ?_, ?_, ?_⟩
    · simp only [Motor.set_speed, set_speed_ops_neg w m speed h,
        set_speed_ops_pos w m (-speed) hp, Motor.swap_direction, Gpio.run, List.foldl,
        Gpio.step, digitalWrite, analogWrite, Gpio.mk.injEq, true_and, hn]
      refine ⟨?_, trivial⟩
      funext q
      split_ifs <;> simp_all
    all_goals
      simp [Motor.set_speed, set_speed_ops_neg w m speed h, set_speed_ops_pos w m (-speed) hp,
        Gpio.run, Gpio.step, digitalWrite, analogWrite, hn, hfb]
  · subst h
    refine ⟨?_, ?_, ?_, ?_⟩
    · simp only [neg_zero, Motor.set_speed, set_speed_ops_zero, Motor.swap_direction, Gpio.run,
        List.foldl, Gpio.step, digitalWrite, analogWrite, Gpio.mk.injEq, true_and]
      refine ⟨?_, trivial⟩
      funext q
      split_ifs <;> simp_all
    all_goals
      simp [Motor.set_speed, set_speed_ops_zero, Gpio.run, Gpio.step, digitalWrite,
        analogWrite]
  · have hng : -speed < 0 := by omega
    have hn : negInt w (-speed) = speed := by
      have := negInt_eq_neg w hw (-speed) ⟨by omega, by omega⟩ (by omega)
      simpa using this
    refine ⟨?_, ?_, ?_, ?_⟩
    · simp only [Motor.set_speed, set_speed_ops_pos w m speed h,
        set_speed_ops_neg w m (-speed) hng, Motor.swap_direction, Gpio.run, List.foldl,
        Gpio.step, digitalWrite, analogWrite, Gpio.mk.injEq, true_and, hn]
      refine ⟨?_, trivial⟩
      funext q
      split_ifs <;> simp_all
    all_goals
      simp [Motor.set_speed, set_speed_ops_pos w m speed h, set_speed_ops_neg w m (-speed) hng,
        Gpio.run, Gpio.step, digitalWrite, analogWrite, hn, hfb]

/-- Witness for C14: 16-bit `int`, pins 4, 5, 6, speed 200 from power-on. -/
theorem sign_symmetry_witness :
    (1 ≤ 16) ∧ (Motor.mk 4 5 6).PinsDistinct ∧ IsInt 16 200 ∧
    (200 : Int) ≠ -(2 ^ (16 - 1)) ∧
    (Motor.mk 4 5 6).set_speed 16 (-200) Gpio.reset =
      (Motor.mk 4 5 6).swap_direction ((Motor.mk 4 5 6).set_speed 16 200 Gpio.reset) :=
  ⟨by decide, by decide, by decide, by decide,
   (sign_symmetry 16 (Motor.mk 4 5 6) Gpio.reset 200 (by decide) (by decide) (by decide)
      (by decide)).1⟩

/-- C15: the constructor takes aliased pins as they are, and with the forward
and reverse members on one pin the direction table and the safety invariant
fail: after `set_speed(speed)` with speed > 0 the shared pin is LOW, so the
forward line is not high, and with speed < 0 it is HIGH, so forward and reverse
read HIGH together. -/
theorem aliased_direction_pins (w : Nat) (m : Motor) (g0 g : Gpio)
    (hal : m.forward_pin = m.back_pin) :
    (Motor.construct m.forward_pin m.back_pin m.pwm_pin g0).1 = m ∧
    ¬ m.PinsDistinct ∧
    (∀ speed : Int, 0 < speed →
      (m.set_speed w speed g).level m.forward_pin = Level.LOW) ∧
    (∀ speed : Int, speed < 0 →
      (m.set_speed w speed g).level m.forward_pin = Level.HIGH ∧
      (m.set_speed w speed g).level m.back_pin = Level.HIGH ∧
      m.both_high (m.set_speed w speed g)) := by
  refine ⟨rfl, fun hd => hd.1 hal, ?_, ?_⟩
  · intro speed h
    simp [Motor.set_speed, set_speed_ops_pos w m speed h, Gpio.run, Gpio.step, digitalWrite,
      analogWrite, hal]
  · intro speed h
    simp [Motor.both_high, Motor.set_speed, set_speed_ops_neg w m speed h, Gpio.run, Gpio.step,
      digitalWrite, analogWrite, hal]

/-- Witness for C15: forward and reverse both on pin 4, PWM on pin 6, speeds 200
and -150 from power-on. -/
theorem aliased_direction_pins_witness :
    (Motor.mk 4 4 6).forward_pin = (Motor.mk 4 4 6).back_pin ∧
    ((0 : Int) < 200 ∧ ((Motor.mk 4 4 6).set_speed 16 200 Gpio.reset).level 4 = Level.LOW) ∧
    ((-150 : Int) < 0 ∧ (Motor.mk 4 4 6).both_high ((Motor.mk 4 4 6).set_speed 16 (-150) Gpio.reset)) :=
  ⟨rfl,
   ⟨by decide,
    (aliased_direction_pins 16 (Motor.mk 4 4 6) Gpio.reset Gpio.reset rfl).2.2.1 200
      (by decide)⟩,
   ⟨by decide,
    ((aliased_direction_pins 16 (Motor.mk 4 4 6) Gpio.reset Gpio.reset rfl).2.2.2 (-150)
      (by decide)).2.2⟩⟩

end Hamilton
